import Mathlib

/-!
# Verification of the rudiment CRUD resource manager

Shallow embedding of `src/rudiment.js` (latest revision) together with the
RethinkDB adapter `src/lib/rethinkdb.js`.  JavaScript documents are modelled
as association lists from property names to JSON-like values; the backing
store is a list of persisted documents plus a generator for native ids; every
store-touching operation additionally returns the list of adapter calls it
issued, so that claims of the form "the backing store is never queried" can
be stated.
-/

namespace Rudiment

/-- JSON-like values stored in document properties.  (`undefined` is modelled
by property absence; the embedding never stores an `undefined` value inside a
document, matching how the library constructs documents.) -/
inductive JVal where
  | null : JVal
  | bool (b : Bool) : JVal
  | num (n : Int) : JVal
  | str (s : String) : JVal
deriving DecidableEq, Repr

/-- JavaScript truthiness test for the values of `JVal` (`!value` in the
source).  `null`, `false`, `0` and the empty string are falsy. -/
def falsy : JVal → Bool
  | .null => true
  | .bool b => !b
  | .num n => n == 0
  | .str s => s == ""

/-- A document: an open mapping from property names to values, modelled as an
association list (insertion ordered, as JavaScript objects are). -/
abbrev Doc := List (String × JVal)

namespace Doc

/-- `doc[k]`: the value of property `k`, or `none` for `undefined`. -/
def get (d : Doc) (k : String) : Option JVal :=
  (d.find? (fun p => p.1 == k)).map (·.2)

/-- `doc.hasOwnProperty(k)`. -/
def hasProp (d : Doc) (k : String) : Bool :=
  d.any (fun p => p.1 == k)

/-- `doc[k] = v`: overwrite in place when the property exists, append
otherwise (JavaScript object assignment semantics). -/
def set (d : Doc) (k : String) (v : JVal) : Doc :=
  if d.hasProp k then d.map (fun p => if p.1 == k then (k, v) else p)
  else d ++ [(k, v)]

/-- `delete doc[k]`. -/
def del (d : Doc) (k : String) : Doc :=
  d.filter (fun p => p.1 != k)

end Doc

/-- Resource configuration, immutable after construction
(`src/rudiment.js` lines 756-812).  `inMap`/`outMap` model `_in_map` and
`_out_map`; `mapOrSelf` defaults them to the identity when the `in`/`out`
options are absent. -/
structure Config where
  schema : List (Doc → Bool)
  props : Option (List String)
  key : Option String
  index : Option String
  uniq : List String
  inMap : Doc → Doc
  outMap : Doc → Doc

/-- `this._uniq` (`src/rudiment.js` lines 787-793): the native id (`'id'` for
the RethinkDB adapter), `key` and `index` when configured, plus the `uniq`
option, filtered for truthiness (absent entries and empty strings dropped). -/
def uniqProps (cfg : Config) : List String :=
  (["id"] ++ cfg.key.toList ++ cfg.index.toList ++ cfg.uniq).filter (fun p => p ≠ "")

/-- `clean` (`src/rudiment.js` lines 845-857): with no whitelist return the
document unchanged, otherwise fold the whitelist, copying a property only if
present on the input. -/
def clean (props : Option (List String)) (doc : Doc) : Doc :=
  match props with
  | none => doc
  | some ps =>
    ps.foldl (fun obj prop =>
      match doc.get prop with
      | some v => obj.set prop v
      | none => obj) []

/-- `isValid` (`src/rudiment.js` lines 868-872):
`!!this._schema.find(fn => fn(doc))`. -/
def isValid (schema : List (Doc → Bool)) (doc : Doc) : Bool :=
  (schema.find? (fun schemaFn => schemaFn doc)).isSome

/-- `pick` (`src/rudiment.js` lines 713-721): projection onto `keys`,
copying only properties whose value is not `undefined`. -/
def pick (obj : Doc) (keys : List String) : Doc :=
  keys.foldl (fun memo key =>
    match obj.get key with
    | some v => memo.set key v
    | none => memo) []

/-- The backing store: the table's persisted documents plus a generator for
native ids (the RethinkDB server generates a fresh key per insert; we model
the generated keys as increasing integers). -/
structure Store where
  docs : List Doc
  nextId : Int
deriving Repr

/-- Adapter calls issued against the backing store during one operation. -/
inductive DbEvent where
  | filterEv (props : Doc) : DbEvent
  | nextIndexEv : DbEvent
  | insertEv (doc : Doc) : DbEvent
  | readEv (idv : JVal) : DbEvent
  | updateEv (idv : JVal) (patch : Doc) : DbEvent
  | deleteEv (idv : JVal) : DbEvent
deriving DecidableEq, Repr

/-- Outcome of a store-touching operation: a resolved value or the message of
the rejecting `Error`, the resulting store, and the adapter calls issued. -/
structure DbResult (α : Type) where
  res : Except String α
  store : Store
  events : List DbEvent
deriving Repr

/-- RethinkDB `table.filter(props)` (`src/lib/rethinkdb.js` `find` and
`isAdmissible`): the documents whose every field named in `props` equals the
given value (field-by-field conjunction). -/
def dbFilter (st : Store) (props : Doc) : List Doc :=
  st.docs.filter (fun d => props.all (fun kv => d.get kv.1 == some kv.2))

/-- RethinkDB `table.get(id)`. -/
def dbGet (st : Store) (idv : JVal) : Option Doc :=
  st.docs.find? (fun d => d.get "id" == some idv)

/-- The index values present in the store under property `ix` (the secondary
index used by `orderBy({index})` contains the documents having a numeric
value for `ix`). -/
def ivals (ix : String) (st : Store) : List Int :=
  st.docs.filterMap (fun d =>
    match d.get ix with
    | some (.num n) => some n
    | _ => none)

/-- The adapter computation behind `getNextIndex`
(`src/lib/rethinkdb.js` lines 30-36):
`orderBy({index}).nth(-1).default(null)` yields the document with the
greatest index value, and the result is that value plus one, or `0` when the
index holds no document. -/
def dbNextIndex (ix : String) (st : Store) : Int :=
  match (ivals ix st).max? with
  | none => 0
  | some m => m + 1

/-- `getNextIndex` (`src/rudiment.js` lines 831-837): rejects when no `index`
option is configured, otherwise delegates to the adapter. -/
def getNextIndex (cfg : Config) (st : Store) : Except String Int × List DbEvent :=
  match cfg.index with
  | none => (.error "No auto-indexing key specified", [])
  | some ix => (.ok (dbNextIndex ix st), [.nextIndexEv])

/-- `isAdmissible` (`src/rudiment.js` lines 883-894): invalid documents are
inadmissible without touching the store; an empty projection onto the unique
properties is admissible without touching the store; otherwise the adapter
filter (`src/lib/rethinkdb.js` lines 38-42) must come back empty. -/
def isAdmissible (cfg : Config) (st : Store) (doc : Doc) : Bool × List DbEvent :=
  if !(isValid cfg.schema doc) then (false, [])
  else
    let props := pick doc (uniqProps cfg)
    if props.isEmpty then (true, [])
    else ((dbFilter st props).isEmpty, [.filterEv props])

/-- RethinkDB `table.insert(doc)` (`src/lib/rethinkdb.js` lines 44-50): the
server generates a key only when the document carries no `id` of its own;
`generated_keys` is empty otherwise. -/
def dbInsert (st : Store) (doc : Doc) : Store × List JVal :=
  if doc.hasProp "id" then ({ st with docs := st.docs ++ [doc] }, [])
  else
    ({ docs := st.docs ++ [doc.set "id" (.num st.nextId)], nextId := st.nextId + 1 },
      [.num st.nextId])

/-- `_readDoc` composed with the adapter `read` (`src/rudiment.js` lines
949-969): reject with "Document not found" when the store holds no such
document, otherwise apply `_out_map`. -/
def readR (cfg : Config) (st : Store) (idv : JVal) : Except String Doc × List DbEvent :=
  match dbGet st idv with
  | none => (.error "Document not found", [.readEv idv])
  | some d => (.ok (cfg.outMap d), [.readEv idv])

/-- `create` (`src/rudiment.js` lines 902-933) over the RethinkDB adapter:
in-map, admissibility gate, clean, delete any caller-supplied index value,
`getNextIndex()` (called unconditionally), assign the index when configured,
insert, and read the inserted document back (the adapter `create` calls the
resource `read`, so the result passes through `_out_map`). -/
def create (cfg : Config) (st : Store) (doc0 : Doc) : DbResult Doc :=
  let doc := cfg.inMap doc0
  match isAdmissible cfg st doc with
  | (false, e1) => ⟨.error "Document not admissible", st, e1⟩
  | (true, e1) =>
    let doc1 := clean cfg.props doc
    let doc2 := match cfg.index with
      | some ix => doc1.del ix
      | none => doc1
    match getNextIndex cfg st with
    | (.error msg, e2) => ⟨.error msg, st, e1 ++ e2⟩
    | (.ok mx, e2) =>
      let doc3 := match cfg.index with
        | some ix => doc2.set ix (.num mx)
        | none => doc2
      let (st1, keys) := dbInsert st doc3
      match keys with
      | [] => ⟨.error "Document not created", st1, e1 ++ e2 ++ [.insertEv doc3]⟩
      | k :: _ =>
        match readR cfg st1 k with
        | (.error msg, e4) => ⟨.error msg, st1, e1 ++ e2 ++ [.insertEv doc3] ++ e4⟩
        | (.ok d, e4) => ⟨.ok d, st1, e1 ++ e2 ++ [.insertEv doc3] ++ e4⟩

/-- `readByKey` (`src/rudiment.js` lines 977-990): reject when no `key`
option is configured or the argument is falsy; otherwise a single-property
adapter `find` followed by `_readDoc(docs[0])`. -/
def readByKey (cfg : Config) (st : Store) (k : JVal) : Except String Doc × List DbEvent :=
  match cfg.key with
  | none => (.error "No unique key specified", [])
  | some kp =>
    if falsy k then (.error "No unique key specified", [])
    else
      let props : Doc := [(kp, k)]
      match dbFilter st props with
      | [] => (.error "Document not found", [.filterEv props])
      | d :: _ => (.ok (cfg.outMap d), [.filterEv props])

/-- `_propIndex` (`src/rudiment.js` lines 995-1009) specialised to integer
arguments (`parseInt` of a finite number is that number): `none` exactly when
no `index` option is configured. -/
def _propIndex (cfg : Config) (index : Int) : Option Doc :=
  match cfg.index with
  | none => none
  | some ix => some [(ix, .num index)]

/-- `readByIndex` (`src/rudiment.js` lines 1017-1028). -/
def readByIndex (cfg : Config) (st : Store) (index : Int) : Except String Doc × List DbEvent :=
  match _propIndex cfg index with
  | none => (.error "No auto-indexing key specified", [])
  | some props =>
    match dbFilter st props with
    | [] => (.error "Document not found", [.filterEv props])
    | d :: _ => (.ok (cfg.outMap d), [.filterEv props])

/-- The in-place merge loop of `_updateDoc` (`src/rudiment.js` lines
1054-1058): every property already present on `doc` that `updates` also
defines is overwritten; no new property is added. -/
def mergeDoc (doc updates : Doc) : Doc :=
  doc.map (fun p =>
    if updates.hasProp p.1 then (p.1, (updates.get p.1).getD p.2) else p)

/-- RethinkDB `get(id).update(patch)`: merge the patch fields into every
document whose `id` matches (at most one in a real table). -/
def applyPatch (d patch : Doc) : Doc :=
  patch.foldl (fun acc kv => acc.set kv.1 kv.2) d

/-- Adapter `update` (`src/lib/rethinkdb.js` lines 60-66): patch, then read
the document back through the resource `read` (so through `_out_map`). -/
def dbUpdate (cfg : Config) (st : Store) (idv : JVal) (patch : Doc) : DbResult Doc :=
  let st1 : Store :=
    { st with docs := st.docs.map (fun d =>
        if d.get "id" == some idv then applyPatch d patch else d) }
  match readR cfg st1 idv with
  | (.error msg, e2) => ⟨.error msg, st1, .updateEv idv patch :: e2⟩
  | (.ok d, e2) => ⟨.ok d, st1, .updateEv idv patch :: e2⟩

/-- `_updateDoc` (`src/rudiment.js` lines 1051-1072): in-map the updates,
merge them into the (already read) document, re-validate, capture the native
id from the merged document, delete every unique property, clean, and persist
the remainder as a patch. -/
def _updateDoc (cfg : Config) (st : Store) (doc0 updates0 : Doc) : DbResult Doc :=
  let updates := cfg.inMap updates0
  let doc := mergeDoc doc0 updates
  if !(isValid cfg.schema doc) then ⟨.error "Updated document is invalid", st, []⟩
  else
    let idv := (doc.get "id").getD .null
    let doc1 := (uniqProps cfg).foldl (fun d u => d.del u) doc
    let doc2 := clean cfg.props doc1
    dbUpdate cfg st idv doc2

/-- `update` (`src/rudiment.js` lines 1081-1087): read by native id, then
`_updateDoc`. -/
def update (cfg : Config) (st : Store) (idv : JVal) (updates : Doc) : DbResult Doc :=
  match readR cfg st idv with
  | (.error msg, e1) => ⟨.error msg, st, e1⟩
  | (.ok d, e1) =>
    let r := _updateDoc cfg st d updates
    ⟨r.res, r.store, e1 ++ r.events⟩

/-- `updateByKey` (`src/rudiment.js` lines 1096-1106). -/
def updateByKey (cfg : Config) (st : Store) (k : JVal) (updates : Doc) : DbResult Doc :=
  match cfg.key with
  | none => ⟨.error "No unique key specified", st, []⟩
  | some _ =>
    if falsy k then ⟨.error "No unique key specified", st, []⟩
    else
      match readByKey cfg st k with
      | (.error msg, e1) => ⟨.error msg, st, e1⟩
      | (.ok d, e1) =>
        let r := _updateDoc cfg st d updates
        ⟨r.res, r.store, e1 ++ r.events⟩

/-- `updateByIndex` (`src/rudiment.js` lines 1115-1121). -/
def updateByIndex (cfg : Config) (st : Store) (index : Int) (updates : Doc) : DbResult Doc :=
  match readByIndex cfg st index with
  | (.error msg, e1) => ⟨.error msg, st, e1⟩
  | (.ok d, e1) =>
    let r := _updateDoc cfg st d updates
    ⟨r.res, r.store, e1 ++ r.events⟩

/-- `delete` (`src/rudiment.js` lines 1129-1135) over the adapter `delete`
(`src/lib/rethinkdb.js` lines 68-72). -/
def deleteR (_cfg : Config) (st : Store) (idv : JVal) : DbResult Unit :=
  let kept := st.docs.filter (fun d => !(d.get "id" == some idv))
  let deleted := st.docs.length - kept.length
  if deleted > 0 then ⟨.ok (), { st with docs := kept }, [.deleteEv idv]⟩
  else ⟨.error "Document not found", { st with docs := kept }, [.deleteEv idv]⟩

/-- `deleteByKey` (`src/rudiment.js` lines 1143-1153). -/
def deleteByKey (cfg : Config) (st : Store) (k : JVal) : DbResult Unit :=
  match cfg.key with
  | none => ⟨.error "No unique key specified", st, []⟩
  | some _ =>
    if falsy k then ⟨.error "No unique key specified", st, []⟩
    else
      match readByKey cfg st k with
      | (.error msg, e1) => ⟨.error msg, st, e1⟩
      | (.ok d, e1) =>
        let r := deleteR cfg st ((d.get "id").getD .null)
        ⟨r.res, r.store, e1 ++ r.events⟩

/-! ## Concrete resources and stores used as test inputs -/

/-- The identity document transform (`mapOrSelf` with no `in`/`out` option). -/
def idMap : Doc → Doc := fun d => d

def emptyStore : Store := ⟨[], 0⟩

/-- A resource with no `index` option, a trivially satisfied schema and no
whitelist. -/
def cfgNoIndex : Config :=
  { schema := [fun _ => true], props := none, key := none, index := none,
    uniq := [], inMap := idMap, outMap := idMap }

/-- A resource keyed on `username`, whose schema requires a `name` property. -/
def cfgUsers : Config :=
  { schema := [fun d => d.hasProp "name"], props := none, key := some "username",
    index := none, uniq := [], inMap := idMap, outMap := idMap }

/-- One user already stored. -/
def stUsers : Store :=
  ⟨[[("id", .num 0), ("username", .str "a"), ("name", .str "x")]], 1⟩

/-- A resource with two unique properties beyond the native id. -/
def cfgUniq2 : Config :=
  { schema := [fun _ => true], props := none, key := some "username",
    index := none, uniq := ["email"], inMap := idMap, outMap := idMap }

/-- A stored document holding `username` `'a'` and `email` `'y'`. -/
def stShared : Store :=
  ⟨[[("id", .num 0), ("username", .str "a"), ("email", .str "y")]], 1⟩

/-- A candidate sharing only the `username` value with the stored document. -/
def docShared : Doc := [("username", .str "a"), ("email", .str "x")]

/-- An auto-indexed resource (`index: 'uid'`). -/
def cfgIdx : Config :=
  { schema := [fun _ => true], props := some ["name", "uid"], key := none,
    index := some "uid", uniq := [], inMap := idMap, outMap := idMap }

def docName : Doc := [("name", .str "a")]

def docNoName : Doc := [("username", .str "b")]

def docDupUsername : Doc := [("username", .str "a"), ("name", .str "y")]

/-- The document stored in `stUsers`. -/
def docUserA : Doc := [("id", .num 0), ("username", .str "a"), ("name", .str "x")]

/-- A resource with no schema constraint, whitelist, key or index. -/
def cfgPlain : Config :=
  { schema := [fun _ => true], props := none, key := none, index := none,
    uniq := [], inMap := idMap, outMap := idMap }

/-- Two stored documents; the second one has no `name` property. -/
def stTwo : Store :=
  ⟨[[("id", .num 1), ("name", .str "a")], [("id", .num 2)]], 3⟩

/-! ## Helper lemmas about the document operations -/

namespace Doc

theorem get_cons (p : String × JVal) (d : Doc) (k : String) :
    get (p :: d) k = if p.1 = k then some p.2 else get d k := by
  by_cases h : p.1 = k
  · rw [get, List.find?_cons_of_pos _ (by simpa using h)]
    simp [h]
  · rw [get, List.find?_cons_of_neg _ (by simpa using h)]
    simp [h, get]

theorem hasProp_eq_isSome (d : Doc) (k : String) : d.hasProp k = (d.get k).isSome := by
  induction d with
  | nil => rfl
  | cons p d ih =>
    rw [get_cons]
    by_cases h : p.1 = k
    · simp [hasProp, h]
    · simp only [hasProp, List.any_cons] at ih ⊢
      simp [h, ih]

theorem get_eq_none_of_hasProp_false (d : Doc) (k : String) (h : d.hasProp k = false) :
    d.get k = none := by
  rcases hg : d.get k with _ | w
  · rfl
  · rw [hasProp_eq_isSome, hg] at h
    simp at h

theorem get_append (d₁ d₂ : Doc) (k : String) :
    get (d₁ ++ d₂) k = ((get d₁ k).or (get d₂ k)) := by
  simp only [get, List.find?_append]
  rcases h : List.find? (fun p => p.1 == k) d₁ with _ | p <;> simp [h, Option.or]

theorem get_map_overwrite_self (k : String) (v : JVal) :
    ∀ d : Doc, d.hasProp k = true →
      get (d.map fun p => if p.1 == k then (k, v) else p) k = some v := by
  intro d
  induction d with
  | nil => intro h; simp [hasProp] at h
  | cons p d ih =>
    intro h
    by_cases hp : p.1 = k
    · simp [List.map_cons, hp, get_cons]
    · have h101 : hasProp d k = true := by
        simpa [hasProp, hp] using h
      have hhead : (if (p.1 == k) = true then ((k : String), v) else p) = p := by
        simp [hp]
      simp only [List.map_cons, hhead]
      rw [get_cons, if_neg hp]
      exact ih h101

theorem get_map_overwrite_ne (k k' : String) (v : JVal) (hne : k' ≠ k) :
    ∀ d : Doc,
      get (d.map fun p => if p.1 == k then (k, v) else p) k' = get d k' := by
  intro d
  induction d with
  | nil => rfl
  | cons p d ih =>
    by_cases hp : p.1 = k
    · have hhead : (if (p.1 == k) = true then ((k : String), v) else p) = (k, v) := by
        simp [hp]
      have hp' : p.1 ≠ k' := by rw [hp]; exact Ne.symm hne
      simp only [List.map_cons, hhead]
      rw [get_cons, get_cons, if_neg (Ne.symm hne), if_neg hp']
      exact ih
    · have hhead : (if (p.1 == k) = true then ((k : String), v) else p) = p := by
        simp [hp]
      simp only [List.map_cons, hhead]
      rw [get_cons, get_cons]
      by_cases hq : p.1 = k'
      · rw [if_pos hq, if_pos hq]
      · rw [if_neg hq, if_neg hq]
        exact ih

theorem get_set_self (d : Doc) (k : String) (v : JVal) : (d.set k v).get k = some v := by
  rw [set]
  by_cases h : d.hasProp k
  · rw [if_pos h]
    exact get_map_overwrite_self k v d h
  · rw [if_neg h]
    rw [get_append, get_eq_none_of_hasProp_false d k (by simpa using h)]
    simp [get_cons, Option.or]

theorem get_set_ne (d : Doc) {k k' : String} (v : JVal) (h : k' ≠ k) :
    (d.set k v).get k' = d.get k' := by
  rw [set]
  by_cases hh : d.hasProp k
  · rw [if_pos hh]
    exact get_map_overwrite_ne k k' v h d
  · rw [if_neg hh]
    rw [get_append]
    have hsingle : get [(k, v)] k' = none := by
      rw [get_cons, if_neg (Ne.symm h)]
      rfl
    rw [hsingle]
    rcases get d k' with _ | w <;> simp [Option.or]

theorem get_set (d : Doc) (k k' : String) (v : JVal) :
    (d.set k v).get k' = if k' = k then some v else d.get k' := by
  by_cases h : k' = k
  · subst h
    simp [get_set_self]
  · simp [h, get_set_ne d v h]

theorem hasProp_set (d : Doc) (k k' : String) (v : JVal) :
    (d.set k v).hasProp k' = (d.hasProp k' || (k' == k)) := by
  rw [hasProp_eq_isSome, hasProp_eq_isSome, get_set]
  by_cases h : k' = k
  · simp [h]
  · simp [h]

theorem get_del (d : Doc) (k k' : String) :
    (d.del k).get k' = if k' = k then none else d.get k' := by
  induction d with
  | nil => simp [del, get]
  | cons p d ih =>
    by_cases hp : p.1 = k
    · have hfil : del (p :: d) k = del d k := by
        simp [del, List.filter_cons, hp]
      rw [hfil, ih, get_cons]
      by_cases hq : k' = k
      · rw [if_pos hq, if_pos hq]
      · have hpk : p.1 ≠ k' := by rw [hp]; exact fun e => hq e.symm
        rw [if_neg hq, if_neg hq, if_neg hpk]
    · have hfil : del (p :: d) k = p :: del d k := by
        simp [del, List.filter_cons, hp]
      rw [hfil, get_cons, get_cons, ih]
      by_cases hr : p.1 = k'
      · have hq : k' ≠ k := by rw [← hr]; exact hp
        rw [if_pos hr, if_neg hq, if_pos hr]
      · rw [if_neg hr, if_neg hr]

theorem hasProp_del (d : Doc) (k k' : String) :
    (d.del k).hasProp k' = (decide (k' ≠ k) && d.hasProp k') := by
  rw [hasProp_eq_isSome, hasProp_eq_isSome, get_del]
  by_cases h : k' = k
  · simp [h]
  · simp [h]

end Doc

/-! ## Lemmas about the projection folds (`clean`, `pick`), the merge loop,
the unique-property deletion loop and the RethinkDB patch -/

/-- Characterization of the copy-if-present fold shared by `clean` and
`pick`. -/
theorem foldProj_get (doc : Doc) :
    ∀ (ks : List String) (acc : Doc) (k : String),
      (ks.foldl (fun memo key =>
          match doc.get key with
          | some v => memo.set key v
          | none => memo) acc).get k
        = if ks.contains k && (doc.get k).isSome then doc.get k else acc.get k := by
  intro ks
  induction ks with
  | nil => intro acc k; simp
  | cons kk ks ih =>
    intro acc k
    rw [List.foldl_cons, ih]
    by_cases hk : k = kk
    · subst hk
      rcases hdk : doc.get k with _ | w
      · simp [hdk]
      · simp [hdk, Doc.get_set_self]
    · rcases hdk : doc.get kk with _ | w
      · simp only [hdk, List.contains_cons]
        have : (k == kk) = false := by simp [hk]
        rw [this, Bool.false_or]
      · simp only [hdk, List.contains_cons]
        have hbk : (k == kk) = false := by simp [hk]
        rw [hbk, Bool.false_or, Doc.get_set_ne acc w hk]

/-- The projection fold reads the source document only at the listed keys. -/
theorem foldProj_congr (doc doc' : Doc) :
    ∀ ks : List String, (∀ key ∈ ks, doc.get key = doc'.get key) → ∀ acc : Doc,
      ks.foldl (fun memo key =>
          match doc.get key with
          | some v => memo.set key v
          | none => memo) acc
        = ks.foldl (fun memo key =>
            match doc'.get key with
            | some v => memo.set key v
            | none => memo) acc := by
  intro ks
  induction ks with
  | nil => intro _ acc; rfl
  | cons kk ks ih =>
    intro h acc
    rw [List.foldl_cons, List.foldl_cons]
    have hhead : doc.get kk = doc'.get kk := h kk (List.mem_cons.mpr (Or.inl rfl))
    have htail := fun key hkey => h key (List.mem_cons.mpr (Or.inr hkey))
    rcases hdk : doc.get kk with _ | w
    · have hdk' : doc'.get kk = none := by rw [← hhead]; exact hdk
      simp only [hdk, hdk']
      exact ih htail acc
    · have hdk' : doc'.get kk = some w := by rw [← hhead]; exact hdk
      simp only [hdk, hdk']
      exact ih htail _

theorem clean_get_some (ps : List String) (doc : Doc) (k : String) :
    (clean (some ps) doc).get k
      = if ps.contains k && (doc.get k).isSome then doc.get k else none := by
  have h := foldProj_get doc ps [] k
  simpa [clean] using h

theorem pick_get (doc : Doc) (ks : List String) (k : String) :
    (pick doc ks).get k
      = if ks.contains k && (doc.get k).isSome then doc.get k else none := by
  have h := foldProj_get doc ks [] k
  simpa [pick] using h

/-- `clean` is idempotent: the cleaned document agrees with the original on
every whitelisted property, so cleaning again rebuilds the same document. -/
theorem clean_idem (props : Option (List String)) (doc : Doc) :
    clean props (clean props doc) = clean props doc := by
  cases props with
  | none => rfl
  | some ps =>
    have hagree : ∀ key ∈ ps, (clean (some ps) doc).get key = doc.get key := by
      intro key hk
      rw [clean_get_some]
      rcases hdk : doc.get key with _ | w
      · simp [hdk]
      · simp [hdk, hk]
    show clean (some ps) (clean (some ps) doc) = clean (some ps) doc
    simp only [clean]
    exact foldProj_congr _ _ ps hagree []

/-- The in-place merge loop of `_updateDoc`: a property of the result comes
from `updates` exactly when both documents carry it; no property is added or
removed. -/
theorem mergeDoc_get (doc updates : Doc) (k : String) :
    (mergeDoc doc updates).get k
      = if updates.hasProp k && doc.hasProp k then updates.get k else doc.get k := by
  induction doc with
  | nil => simp [mergeDoc, Doc.hasProp, Doc.get]
  | cons p doc ih =>
    have hfst : ((if updates.hasProp p.1 then (p.1, (updates.get p.1).getD p.2) else p) :
        String × JVal).1 = p.1 := by
      by_cases hu : updates.hasProp p.1 <;> simp [hu]
    rw [mergeDoc, List.map_cons, Doc.get_cons, ← mergeDoc, Doc.get_cons, hfst]
    by_cases hp : p.1 = k
    · rw [if_pos hp, if_pos hp]
      subst hp
      have hh : Doc.hasProp (p :: doc) p.1 = true := by simp [Doc.hasProp]
      rw [hh, Bool.and_true]
      by_cases hu : updates.hasProp p.1
      · rcases hup : updates.get p.1 with _ | w
        · rw [Doc.hasProp_eq_isSome, hup] at hu
          simp at hu
        · simp [hup, hu]
      · simp [hu]
    · rw [if_neg hp, if_neg hp, ih]
      have hhead : Doc.hasProp (p :: doc) k = Doc.hasProp doc k := by
        simp [Doc.hasProp, hp]
      rw [hhead]

theorem mergeDoc_hasProp (doc updates : Doc) (k : String) :
    (mergeDoc doc updates).hasProp k = doc.hasProp k := by
  rw [Doc.hasProp_eq_isSome, mergeDoc_get]
  by_cases hc : updates.hasProp k && doc.hasProp k
  · rw [if_pos hc]
    rcases Bool.and_eq_true _ _ |>.mp hc with ⟨h1, h2⟩
    rw [← Doc.hasProp_eq_isSome, h1, h2]
  · rw [if_neg hc, ← Doc.hasProp_eq_isSome]

/-- The unique-property deletion loop of `_updateDoc`. -/
theorem foldDel_get :
    ∀ (us : List String) (d : Doc) (k : String),
      (us.foldl (fun dd u => dd.del u) d).get k
        = if us.contains k then none else d.get k := by
  intro us
  induction us with
  | nil => intro d k; simp
  | cons u us ih =>
    intro d k
    rw [List.foldl_cons, ih, Doc.get_del]
    by_cases hk : k = u
    · simp [hk]
    · have : (k == u) = false := by simp [hk]
      rw [List.contains_cons, this, Bool.false_or, if_neg hk]

/-- A RethinkDB patch leaves every field outside the patch untouched. -/
theorem applyPatch_get_of_not_has (k : String) :
    ∀ (patch : Doc) (d : Doc), patch.hasProp k = false →
      (applyPatch d patch).get k = d.get k := by
  intro patch
  induction patch with
  | nil => intro d _; rfl
  | cons kv patch ih =>
    intro d h
    have hk : kv.1 ≠ k := by
      intro e
      rw [Doc.hasProp_eq_isSome, Doc.get_cons, if_pos e] at h
      simp at h
    have htail : Doc.hasProp patch k = false := by
      rw [Doc.hasProp_eq_isSome] at h ⊢
      rw [Doc.get_cons, if_neg hk] at h
      exact h
    rw [applyPatch, List.foldl_cons, ← applyPatch, ih _ htail,
      Doc.get_set_ne d kv.2 (Ne.symm hk)]

/-- A RethinkDB patch can only add fields named in the patch. -/
theorem applyPatch_hasProp (k : String) :
    ∀ (patch : Doc) (d : Doc),
      (applyPatch d patch).hasProp k = (d.hasProp k || patch.hasProp k) := by
  intro patch
  induction patch with
  | nil => intro d; simp [applyPatch, Doc.hasProp]
  | cons kv patch ih =>
    intro d
    rw [applyPatch, List.foldl_cons, ← applyPatch, ih, Doc.hasProp_set]
    simp only [Doc.hasProp, List.any_cons]
    by_cases hk : kv.1 = k
    · simp [hk]
    · have h1 : (k == kv.1) = false := by simp [Ne.symm hk]
      have h2 : (kv.1 == k) = false := by simp [hk]
      rw [h1, h2]
      simp

/-- `(l.find? p).isSome` agrees with `l.any p`. -/
theorem find?_isSome_eq_any {α : Type} (p : α → Bool) (l : List α) :
    (l.find? p).isSome = l.any p := by
  induction l with
  | nil => rfl
  | cons a l ih =>
    rw [List.find?_cons]
    cases h : p a
    · simpa [h] using ih
    · simp [h]

/-! ## Lemmas about the update pipeline -/

theorem zip_map_snd {α : Type} (g : α → α) :
    ∀ l : List α, ∀ pr ∈ l.zip (l.map g), pr.2 = g pr.1 := by
  intro l
  induction l with
  | nil => intro pr h; simp at h
  | cons a l ih =>
    intro pr h
    rw [List.map_cons, List.zip_cons_cons] at h
    rcases List.mem_cons.mp h with h | h
    · rw [h]
    · exact ih pr h

theorem zip_self_snd {α : Type} :
    ∀ l : List α, ∀ pr ∈ l.zip l, pr.2 = pr.1 := by
  intro l pr h
  have h' : pr ∈ l.zip (l.map (fun x => x)) := by
    rw [List.map_id']
    exact h
  exact zip_map_snd (fun x => x) l pr h'

/-- The store after the adapter `update`: every matching document patched. -/
theorem dbUpdate_store (cfg : Config) (st : Store) (idv : JVal) (patch : Doc) :
    (dbUpdate cfg st idv patch).store
      = { st with docs := st.docs.map (fun d =>
            if d.get "id" == some idv then applyPatch d patch else d) } := by
  rw [dbUpdate]
  rcases h : readR cfg { st with docs := st.docs.map (fun d =>
      if d.get "id" == some idv then applyPatch d patch else d) } idv with ⟨res, evs⟩
  cases res <;> simp [h]

theorem clean_hasProp_imp (props : Option (List String)) (x : Doc) (k : String)
    (h : Doc.hasProp (clean props x) k = true) : Doc.hasProp x k = true := by
  cases props with
  | none => exact h
  | some ps =>
    rw [Doc.hasProp_eq_isSome, clean_get_some] at h
    by_cases hc : ps.contains k && (x.get k).isSome
    · rw [Doc.hasProp_eq_isSome]
      exact (Bool.and_eq_true _ _ |>.mp hc).2
    · rw [if_neg hc] at h
      simp at h

theorem foldDel_hasProp_imp (us : List String) (x : Doc) (k : String)
    (h : Doc.hasProp (us.foldl (fun dd u => dd.del u) x) k = true) :
    Doc.hasProp x k = true := by
  rw [Doc.hasProp_eq_isSome, foldDel_get] at h
  by_cases hc : us.contains k = true
  · rw [if_pos hc] at h
    simp at h
  · rw [if_neg hc] at h
    rw [Doc.hasProp_eq_isSome]
    exact h

/-- The patch persisted by `_updateDoc` carries no unique property. -/
theorem updateDoc_patch_no_uniq (cfg : Config) (doc : Doc) (u : String)
    (hu : u ∈ uniqProps cfg) :
    Doc.hasProp
      (clean cfg.props ((uniqProps cfg).foldl (fun dd uu => dd.del uu) doc)) u
      = false := by
  have hdel : ((uniqProps cfg).foldl (fun dd uu => dd.del uu) doc).get u = none := by
    rw [foldDel_get, if_pos (by simp [hu])]
  cases hp : cfg.props with
  | none =>
    show Doc.hasProp ((uniqProps cfg).foldl (fun dd uu => dd.del uu) doc) u = false
    rw [Doc.hasProp_eq_isSome, hdel]
    rfl
  | some ps =>
    rw [Doc.hasProp_eq_isSome, clean_get_some, hdel]
    simp

/-- The patch persisted by `_updateDoc` names only properties of the merged
document. -/
theorem updateDoc_patch_hasProp_imp (cfg : Config) (doc : Doc) (k : String)
    (h : Doc.hasProp
        (clean cfg.props ((uniqProps cfg).foldl (fun dd uu => dd.del uu) doc)) k
        = true) :
    Doc.hasProp doc k = true :=
  foldDel_hasProp_imp _ _ _ (clean_hasProp_imp _ _ _ h)

/-- Unique-property frame of `_updateDoc`: whatever document was read and
whatever the updates are, no stored document's unique properties change. -/
theorem updateDoc_uniq_frame (cfg : Config) (st : Store) (d0 up : Doc)
    (u : String) (hu : u ∈ uniqProps cfg) :
    ∀ pr ∈ st.docs.zip (_updateDoc cfg st d0 up).store.docs,
      pr.2.get u = pr.1.get u := by
  intro pr hpr
  by_cases hval : isValid cfg.schema (mergeDoc d0 (cfg.inMap up)) = true
  · simp only [_updateDoc, hval, Bool.not_true, Bool.false_eq_true, if_false,
      dbUpdate_store] at hpr
    have h2 := zip_map_snd _ _ pr hpr
    rw [h2]
    by_cases hid : (pr.1.get "id"
        == some (((mergeDoc d0 (cfg.inMap up)).get "id").getD .null)) = true
    · rw [if_pos hid]
      exact applyPatch_get_of_not_has u _ pr.1
        (updateDoc_patch_no_uniq cfg (mergeDoc d0 (cfg.inMap up)) u hu)
    · rw [if_neg hid]
  · have hval' : isValid cfg.schema (mergeDoc d0 (cfg.inMap up)) = false := by
      simpa using hval
    simp only [_updateDoc, hval', Bool.not_false, if_true] at hpr
    rw [zip_self_snd _ pr hpr]

/-- The maximum of the integer list `[0, 1, …, k]`. -/
theorem maxRangeMap :
    ∀ k : Nat, ((List.range (k+1)).map (fun n : Nat => (n : Int))).max?
      = some (k : Int) := by
  intro k
  induction k with
  | zero => rfl
  | succ k ih =>
    rw [List.range_succ, List.map_append]
    rcases hl : (List.range (k+1)).map (fun n : Nat => (n : Int)) with _ | ⟨a, l⟩
    · rw [hl] at ih
      simp at ih
    · rw [hl] at ih
      have ha : (a :: l).max? = some (l.foldl max a) := rfl
      rw [ha] at ih
      have hfold : l.foldl max a = (k : Int) := by
        simpa using ih
      have hstep : ((a :: l) ++ [((k+1 : Nat) : Int)]).max?
          = some ((l ++ [((k+1 : Nat) : Int)]).foldl max a) := rfl
      show ((a :: l) ++ [((k+1 : Nat) : Int)]).max? = some (((k+1 : Nat) : Int))
      rw [hstep, List.foldl_append, hfold]
      have hle : ((k : Int)) ≤ ((k+1 : Nat) : Int) := by
        push_cast
        omega
      show some (max (k : Int) ((k+1 : Nat) : Int)) = some (((k+1 : Nat) : Int))
      rw [max_eq_right hle]

/-! ## Claim theorems -/

/-- C1: the claim states that `create` on a resource without an
`indexProperty` skips key allocation and persists the document.  The code
instead calls `getNextIndex()` unconditionally, which rejects with the
configuration error whenever no `index` option is set, so `create` fails even
on this valid and admissible document. -/
theorem create_no_index_rejected_despite_admissible :
    isValid cfgNoIndex.schema docName = true
    ∧ (isAdmissible cfgNoIndex emptyStore docName).1 = true
    ∧ (create cfgNoIndex emptyStore docName).res
        = .error "No auto-indexing key specified" :=
  ⟨rfl, rfl, rfl⟩

/-- C2: the claim (and the function's own doc comment) states that with an
empty schema-predicate sequence every document is valid.  The code computes
`!!this._schema.find(fn => fn(doc))`, which is `false` on an empty sequence,
so no document is ever valid; the first conjunct records the or-semantics
that does hold. -/
theorem isValid_empty_schema_false :
    (∀ (schema : List (Doc → Bool)) (doc : Doc),
      isValid schema doc = schema.any (fun schemaFn => schemaFn doc))
    ∧ ∀ doc : Doc, isValid [] doc = false := by
  constructor
  · intro schema doc
    rw [isValid, find?_isSome_eq_any]
  · intro doc
    rfl

/-- C3: the claim states a conflict is reported when an existing document
matches at least one projected unique-property value (logical OR).  The
RethinkDB adapter filters on the conjunction of all projected values, so this
candidate — which shares its unique `username` value with the stored document
but differs on `email` — is reported admissible. -/
theorem shared_unique_value_still_admissible :
    (uniqProps cfgUniq2).contains "username" = true
    ∧ (stShared.docs.any fun d =>
        d.get "username" == Doc.get docShared "username") = true
    ∧ (isAdmissible cfgUniq2 stShared docShared).1 = true :=
  ⟨rfl, rfl, rfl⟩

/-- C4 counterexample: the claim states that a document failing all schema
predicates makes `create` fail with a `ValidationError` distinct from the
`ConflictError` of the uniqueness gate.  The code throws the single generic
`Error('Document not admissible')` on both paths, so the two failures are the
same error, not distinct ones. -/
theorem create_validation_and_conflict_same_error :
    (create cfgUsers stUsers docNoName).res = .error "Document not admissible"
    ∧ (create cfgUsers stUsers docDupUsername).res = .error "Document not admissible"
    ∧ (create cfgUsers stUsers docNoName).events = [] :=
  ⟨rfl, rfl, rfl⟩

/-- C4 amended: for every document failing all schema predicates, `create`
fails with the generic admissibility error — the same error the uniqueness
gate produces — and no adapter call is issued and the store is unchanged. -/
theorem create_invalid_rejected_without_store_access (cfg : Config) (st : Store)
    (doc : Doc) (h : isValid cfg.schema (cfg.inMap doc) = false) :
    create cfg st doc = ⟨.error "Document not admissible", st, []⟩ := by
  rw [create, isAdmissible, h]
  rfl

theorem create_invalid_rejected_without_store_access_witness :
    create cfgUsers stUsers docNoName
      = ⟨.error "Document not admissible", stUsers, []⟩ :=
  create_invalid_rejected_without_store_access cfgUsers stUsers docNoName rfl

/-- C9: with a fixed whitelist, `clean` yields a document whose properties
are exactly the whitelisted ones actually present on the input, with the
input's values, and `clean` is idempotent. -/
theorem clean_exact_projection_and_idempotent (ps : List String) (doc : Doc)
    (k : String) :
    ((clean (some ps) doc).get k
      = if ps.contains k && doc.hasProp k then doc.get k else none)
    ∧ clean (some ps) (clean (some ps) doc) = clean (some ps) doc := by
  constructor
  · rw [clean_get_some, Doc.hasProp_eq_isSome]
  · exact clean_idem _ _

/-- C10: with `keyProperty` configured, a falsy key argument makes
`readByKey`, `updateByKey` and `deleteByKey` reject with the same
`'No unique key specified'` error as the unconfigured case, with no adapter
call issued and the store unchanged. -/
theorem byKey_falsy_key_rejected (cfg cfg0 : Config) (st : Store) (kp : String)
    (k : JVal) (updates : Doc) (hkey : cfg.key = some kp)
    (hfalsy : falsy k = true) (hkey0 : cfg0.key = none) :
    readByKey cfg st k = (.error "No unique key specified", [])
    ∧ updateByKey cfg st k updates = ⟨.error "No unique key specified", st, []⟩
    ∧ deleteByKey cfg st k = ⟨.error "No unique key specified", st, []⟩
    ∧ readByKey cfg0 st k = (.error "No unique key specified", []) := by
  refine ⟨?_, ?_, ?_, ?_⟩
  · rw [readByKey, hkey]
    simp [hfalsy]
  · rw [updateByKey, hkey]
    simp [hfalsy]
  · rw [deleteByKey, hkey]
    simp [hfalsy]
  · rw [readByKey, hkey0]

theorem byKey_falsy_key_rejected_witness :
    readByKey cfgUsers stUsers (.str "") = (.error "No unique key specified", [])
    ∧ updateByKey cfgUsers stUsers (.str "") [] = ⟨.error "No unique key specified", stUsers, []⟩
    ∧ deleteByKey cfgUsers stUsers (.str "") = ⟨.error "No unique key specified", stUsers, []⟩
    ∧ readByKey cfgNoIndex stUsers (.str "") = (.error "No unique key specified", []) :=
  byKey_falsy_key_rejected cfgUsers cfgNoIndex stUsers "username" (.str "") [] rfl rfl rfl

/-- C8: `readByKey` and `readByIndex` reject with their configuration errors
when `keyProperty`/`indexProperty` is not configured, issuing no adapter
call; when configured (and given a truthy key, resp. an integer index), each
issues exactly one single-property `find`, resolves to the first match, and
fails with `'Document not found'` when there is none. -/
theorem byKey_byIndex_configuration_gate (cfg : Config) (st : Store) (k : JVal)
    (i : Int) (kp ix : String) :
    (cfg.key = none → readByKey cfg st k = (.error "No unique key specified", []))
    ∧ (cfg.index = none →
        readByIndex cfg st i = (.error "No auto-indexing key specified", []))
    ∧ (cfg.key = some kp → falsy k = false →
        (readByKey cfg st k).2 = [.filterEv [(kp, k)]]
        ∧ (dbFilter st [(kp, k)] = [] →
            (readByKey cfg st k).1 = .error "Document not found")
        ∧ ∀ d rest, dbFilter st [(kp, k)] = d :: rest →
            (readByKey cfg st k).1 = .ok (cfg.outMap d))
    ∧ (cfg.index = some ix →
        (readByIndex cfg st i).2 = [.filterEv [(ix, .num i)]]
        ∧ (dbFilter st [(ix, .num i)] = [] →
            (readByIndex cfg st i).1 = .error "Document not found")
        ∧ ∀ d rest, dbFilter st [(ix, .num i)] = d :: rest →
            (readByIndex cfg st i).1 = .ok (cfg.outMap d)) := by
  refine ⟨?_, ?_, ?_, ?_⟩
  · intro h
    rw [readByKey, h]
  · intro h
    rw [readByIndex, _propIndex, h]
  · intro hkey hfalsy
    refine ⟨?_, ?_, ?_⟩
    · rw [readByKey, hkey]
      simp only [hfalsy, Bool.false_eq_true, if_false]
      rcases hfil : dbFilter st [(kp, k)] with _ | ⟨d, rest⟩ <;> simp [hfil]
    · intro hfil
      rw [readByKey, hkey]
      simp only [hfalsy, Bool.false_eq_true, if_false]
      rw [hfil]
    · intro d rest hfil
      rw [readByKey, hkey]
      simp only [hfalsy, Bool.false_eq_true, if_false]
      rw [hfil]
  · intro hidx
    refine ⟨?_, ?_, ?_⟩
    · rw [readByIndex, _propIndex, hidx]
      rcases hfil : dbFilter st [(ix, .num i)] with _ | ⟨d, rest⟩ <;> simp [hfil]
    · intro hfil
      simp [readByIndex, _propIndex, hidx, hfil]
    · intro d rest hfil
      simp [readByIndex, _propIndex, hidx, hfil]

theorem byKey_byIndex_configuration_gate_witness :
    readByKey cfgNoIndex stUsers (.str "a") = (.error "No unique key specified", [])
    ∧ readByIndex cfgUsers stUsers 0 = (.error "No auto-indexing key specified", [])
    ∧ (readByKey cfgUsers stUsers (.str "a")).1 = .ok docUserA
    ∧ (readByKey cfgUsers stUsers (.str "zz")).1 = .error "Document not found"
    ∧ (readByIndex cfgIdx emptyStore 0).1 = .error "Document not found" := by
  refine ⟨?_, ?_, ?_, ?_, ?_⟩
  · exact (byKey_byIndex_configuration_gate cfgNoIndex stUsers (.str "a") 0 "x" "x").1 rfl
  · exact (byKey_byIndex_configuration_gate cfgUsers stUsers (.str "a") 0 "x" "x").2.1 rfl
  · exact ((byKey_byIndex_configuration_gate cfgUsers stUsers (.str "a") 0 "username" "x").2.2.1
      rfl rfl).2.2 docUserA [] rfl
  · exact (((byKey_byIndex_configuration_gate cfgUsers stUsers (.str "zz") 0 "username" "x").2.2.1
      rfl rfl).2.1) rfl
  · exact (((byKey_byIndex_configuration_gate cfgIdx emptyStore (.str "a") 0 "x" "uid").2.2.2
      rfl).2.1) rfl

/-- C7: for `update`, `updateByKey` and `updateByIndex`, every unique
property (native id, key, index and the `uniq` names) of every stored
document is unchanged by the operation — values supplied for those fields in
the `updates` argument are deleted before the patch is persisted and never
written. -/
theorem update_unique_fields_immutable (cfg : Config) (st : Store) (idv k : JVal)
    (i : Int) (updates : Doc) (u : String) (hu : u ∈ uniqProps cfg) :
    (∀ pr ∈ st.docs.zip (update cfg st idv updates).store.docs,
      pr.2.get u = pr.1.get u)
    ∧ (∀ pr ∈ st.docs.zip (updateByKey cfg st k updates).store.docs,
        pr.2.get u = pr.1.get u)
    ∧ (∀ pr ∈ st.docs.zip (updateByIndex cfg st i updates).store.docs,
        pr.2.get u = pr.1.get u) := by
  refine ⟨?_, ?_, ?_⟩
  · rcases h : readR cfg st idv with ⟨res, evs⟩
    cases res with
    | error msg =>
      have hst : (update cfg st idv updates).store = st := by
        simp [update, h]
      rw [hst]
      intro pr hpr
      rw [zip_self_snd _ pr hpr]
    | ok d =>
      have hst : (update cfg st idv updates).store
          = (_updateDoc cfg st d updates).store := by
        simp [update, h]
      rw [hst]
      exact updateDoc_uniq_frame cfg st d updates u hu
  · rcases hk : cfg.key with _ | kp
    · have hst : (updateByKey cfg st k updates).store = st := by
        simp [updateByKey, hk]
      rw [hst]
      intro pr hpr
      rw [zip_self_snd _ pr hpr]
    · by_cases hf : falsy k = true
      · have hst : (updateByKey cfg st k updates).store = st := by
          simp [updateByKey, hk, hf]
        rw [hst]
        intro pr hpr
        rw [zip_self_snd _ pr hpr]
      · rcases h : readByKey cfg st k with ⟨res, evs⟩
        cases res with
        | error msg =>
          have hst : (updateByKey cfg st k updates).store = st := by
            simp [updateByKey, hk, hf, h]
          rw [hst]
          intro pr hpr
          rw [zip_self_snd _ pr hpr]
        | ok d =>
          have hst : (updateByKey cfg st k updates).store
              = (_updateDoc cfg st d updates).store := by
            simp [updateByKey, hk, hf, h]
          rw [hst]
          exact updateDoc_uniq_frame cfg st d updates u hu
  · rcases h : readByIndex cfg st i with ⟨res, evs⟩
    cases res with
    | error msg =>
      have hst : (updateByIndex cfg st i updates).store = st := by
        simp [updateByIndex, h]
      rw [hst]
      intro pr hpr
      rw [zip_self_snd _ pr hpr]
    | ok d =>
      have hst : (updateByIndex cfg st i updates).store
          = (_updateDoc cfg st d updates).store := by
        simp [updateByIndex, h]
      rw [hst]
      exact updateDoc_uniq_frame cfg st d updates u hu

theorem update_unique_fields_immutable_witness :
    Doc.get [("id", JVal.num 0), ("username", .str "a"), ("name", .str "q")] "username"
      = Doc.get docUserA "username" := by
  have h := (update_unique_fields_immutable cfgUsers stUsers (.num 0) (.str "")
      0 [("username", .str "z"), ("name", .str "q")] "username" (by decide)).1
  exact h ⟨docUserA, [("id", JVal.num 0), ("username", .str "a"), ("name", .str "q")]⟩
    (by decide)

/-- C6 counterexample: the claim states that for every stored document and
*every* updates object no property absent from the stored document is ever
introduced by the update.  When `updates` defines the native id, `_updateDoc`
captures the id *after* the merge (`src/rudiment.js` line 1064), so
`update(1, {id: 2, name: 'b'})` on a store holding `{id:1, name:'a'}` and
`{id:2}` leaves the target untouched and patches the *other* stored
document, which gains the `name` property it never had. -/
theorem update_with_id_in_updates_introduces_property :
    Doc.hasProp [("id", JVal.num 2)] "name" = false
    ∧ (update cfgPlain stTwo (.num 1) [("id", .num 2), ("name", .str "b")]).store.docs
        = [[("id", JVal.num 1), ("name", JVal.str "a")],
           [("id", JVal.num 2), ("name", JVal.str "b")]]
    ∧ ∃ pr ∈ stTwo.docs.zip
        (update cfgPlain stTwo (.num 1) [("id", .num 2), ("name", .str "b")]).store.docs,
        pr.2.hasProp "name" = true ∧ pr.1.hasProp "name" = false :=
  ⟨rfl, rfl,
    ⟨([("id", JVal.num 2)], [("id", JVal.num 2), ("name", JVal.str "b")]),
      by decide, rfl, rfl⟩⟩

/-- C6 amended: for every stored document and every updates object that does
not define the native id property, `update` performs a closed-world merge.
First conjunct: the merge loop overwrites exactly the properties present on
the stored document that `updates` also defines, with the values from
`updates`, and no other property.  Second conjunct: across the whole
`update` pipeline, no stored document gains or loses a property — in
particular nothing absent from the stored document is ever introduced.
(Without the no-id restriction the second conjunct is false: see the
counterexample above.) -/
theorem update_closed_world_merge (cfg : Config) (st : Store) (idv : JVal)
    (updates d : Doc)
    (hin : ∀ x, cfg.inMap x = x) (hout : ∀ x, cfg.outMap x = x)
    (hread : dbGet st idv = some d)
    (huniq : ∀ a ∈ st.docs, a.get "id" = some idv → a = d)
    (hnoid : updates.hasProp "id" = false) :
    (∀ (doc : Doc) (k : String),
      (mergeDoc doc updates).get k
        = if updates.hasProp k && doc.hasProp k then updates.get k else doc.get k)
    ∧ ∀ pr ∈ st.docs.zip (update cfg st idv updates).store.docs,
        ∀ k, pr.2.hasProp k = pr.1.hasProp k := by
  refine ⟨fun doc k => mergeDoc_get doc updates k, ?_⟩
  have hrd : readR cfg st idv = (.ok d, [.readEv idv]) := by
    rw [readR, hread]
    show (Except.ok (cfg.outMap d), [DbEvent.readEv idv]) = _
    rw [hout d]
  have hst : (update cfg st idv updates).store
      = (_updateDoc cfg st d updates).store := by
    simp [update, hrd]
  rw [hst]
  by_cases hval : isValid cfg.schema (mergeDoc d (cfg.inMap updates)) = true
  · intro pr hpr k
    have hdid : d.get "id" = some idv := by
      have hpred := List.find?_some hread
      simpa using hpred
    have hmid : (mergeDoc d (cfg.inMap updates)).get "id" = some idv := by
      rw [mergeDoc_get, hin updates, hnoid]
      simpa using hdid
    simp only [_updateDoc, hval, Bool.not_true, Bool.false_eq_true, if_false,
      dbUpdate_store] at hpr
    have h2 := zip_map_snd _ _ pr hpr
    have hmem : pr.1 ∈ st.docs := by
      have := List.of_mem_zip hpr
      exact this.1
    rw [h2]
    by_cases hid : (pr.1.get "id"
        == some (((mergeDoc d (cfg.inMap updates)).get "id").getD .null)) = true
    · rw [if_pos hid]
      have hpr1 : pr.1 = d := by
        apply huniq pr.1 hmem
        have := beq_iff_eq.mp hid
        rw [hmid] at this
        simpa using this
      rw [applyPatch_hasProp, hpr1]
      set patch := clean cfg.props
        ((uniqProps cfg).foldl (fun dd uu => dd.del uu)
          (mergeDoc d (cfg.inMap updates))) with hpatch
      cases hp : Doc.hasProp patch k
      · rw [Bool.or_false]
      · have hk : Doc.hasProp d k = true := by
          have h3 := updateDoc_patch_hasProp_imp cfg
            (mergeDoc d (cfg.inMap updates)) k (by rw [← hpatch]; exact hp)
          rw [mergeDoc_hasProp] at h3
          exact h3
        rw [hk, Bool.true_or]
    · rw [if_neg hid]
  · have hval' : isValid cfg.schema (mergeDoc d (cfg.inMap updates)) = false := by
      simpa using hval
    intro pr hpr k
    simp only [_updateDoc, hval', Bool.not_false, if_true] at hpr
    rw [zip_self_snd _ pr hpr]

theorem update_closed_world_merge_witness :
    Doc.hasProp [("id", JVal.num 0), ("username", .str "a"), ("name", .str "q")] "extra"
      = Doc.hasProp docUserA "extra" := by
  have h := (update_closed_world_merge cfgUsers stUsers (.num 0)
      [("name", .str "q"), ("extra", .num 9)] docUserA
      (fun _ => rfl) (fun _ => rfl) rfl (by decide) rfl).2
  exact h ⟨docUserA, [("id", JVal.num 0), ("username", .str "a"), ("name", .str "q")]⟩
    (by decide) "extra"

/-- C5: with auto-indexing configured, `getNextIndex` resolves to `0` on an
empty resource and to the maximum existing index value plus one otherwise
(conjuncts 3 and 4); and each successful `create` on a store whose index
values are exactly `0 … k-1` assigns index `k` to the created document and
leaves the store with index values exactly `0 … k` (conjuncts 1 and 2), so
sequential creates from an empty resource yield `0, 1, 2, …`, each strictly
greater than the previous. -/
theorem auto_index_monotone (cfg : Config) (ix : String) (k : Nat) (st : Store)
    (doc dd : Doc)
    (hix : cfg.index = some ix) (hixid : ix ≠ "id")
    (hout : ∀ x, cfg.outMap x = x)
    (hids : ∀ d ∈ st.docs, ∀ j : Int, d.get "id" = some (.num j) → j < st.nextId)
    (hvals : ivals ix st = (List.range k).map (fun n : Nat => (n : Int)))
    (hok : (create cfg st doc).res = .ok dd) :
    Doc.get dd ix = some (.num (k : Int))
    ∧ ivals ix (create cfg st doc).store
        = (List.range (k+1)).map (fun n : Nat => (n : Int))
    ∧ (∀ st' : Store, st'.docs = [] → (getNextIndex cfg st').1 = .ok 0)
    ∧ (∀ (st' : Store) (m : Int), (ivals ix st').max? = some m →
        (getNextIndex cfg st').1 = .ok (m + 1)) := by
  have hnext : dbNextIndex ix st = (k : Int) := by
    rw [dbNextIndex, hvals]
    cases k with
    | zero => rfl
    | succ k' =>
      rw [maxRangeMap k']
      show ((k' : Int) + 1) = _
      push_cast
      ring
  have hgn : getNextIndex cfg st = (.ok (dbNextIndex ix st), [.nextIndexEv]) := by
    rw [getNextIndex, hix]
  have hempty : ∀ st' : Store, st'.docs = [] → (getNextIndex cfg st').1 = .ok 0 := by
    intro st' h
    rw [getNextIndex, hix]
    show Except.ok (dbNextIndex ix st') = _
    rw [dbNextIndex, ivals, h]
    rfl
  have hmax : ∀ (st' : Store) (m : Int), (ivals ix st').max? = some m →
      (getNextIndex cfg st').1 = .ok (m + 1) := by
    intro st' m hm
    rw [getNextIndex, hix]
    show Except.ok (dbNextIndex ix st') = _
    rw [dbNextIndex, hm]
  rcases hadm : isAdmissible cfg st (cfg.inMap doc) with ⟨b, e1⟩
  cases b with
  | false =>
    exfalso
    have hres : (create cfg st doc).res = .error "Document not admissible" := by
      simp only [create, hadm]
    rw [hres] at hok
    exact absurd hok (by simp)
  | true =>
    by_cases hhas : Doc.hasProp
        (((clean cfg.props (cfg.inMap doc)).del ix).set ix (.num (k : Int))) "id"
        = true
    · exfalso
      have hres : (create cfg st doc).res = .error "Document not created" := by
        simp only [create, hadm, hgn, hix, hnext, dbInsert, hhas, if_true]
      rw [hres] at hok
      exact absurd hok (by simp)
    · have hhas' : Doc.hasProp
          (((clean cfg.props (cfg.inMap doc)).del ix).set ix (.num (k : Int))) "id"
          = false := by
        simpa using hhas
      have hfindold : List.find?
          (fun d => d.get "id" == some (.num st.nextId)) st.docs = none := by
        rw [List.find?_eq_none]
        intro x hx hpred
        have he := beq_iff_eq.mp hpred
        have hj := hids x hx st.nextId he
        exact absurd hj (lt_irrefl _)
      have hnewget : ((((clean cfg.props (cfg.inMap doc)).del ix).set ix
            (.num (k : Int))).set "id" (.num st.nextId)).get "id"
          = some (.num st.nextId) :=
        Doc.get_set_self _ _ _
      have hdbget : dbGet
          { docs := st.docs ++ [(((clean cfg.props (cfg.inMap doc)).del ix).set ix
              (.num (k : Int))).set "id" (.num st.nextId)],
            nextId := st.nextId + 1 } (.num st.nextId)
          = some ((((clean cfg.props (cfg.inMap doc)).del ix).set ix
              (.num (k : Int))).set "id" (.num st.nextId)) := by
        rw [dbGet]
        show List.find? _ (st.docs ++ _) = _
        rw [List.find?_append, hfindold]
        simp [hnewget]
      have hrd : readR cfg
          { docs := st.docs ++ [(((clean cfg.props (cfg.inMap doc)).del ix).set ix
              (.num (k : Int))).set "id" (.num st.nextId)],
            nextId := st.nextId + 1 } (.num st.nextId)
          = (.ok ((((clean cfg.props (cfg.inMap doc)).del ix).set ix
              (.num (k : Int))).set "id" (.num st.nextId)),
            [.readEv (.num st.nextId)]) := by
        simp only [readR, hdbget, hout]
      have hres : (create cfg st doc).res
          = .ok ((((clean cfg.props (cfg.inMap doc)).del ix).set ix
              (.num (k : Int))).set "id" (.num st.nextId)) := by
        simp only [create, hadm, hgn, hix, hnext, dbInsert, hhas',
          Bool.false_eq_true, if_false, hrd]
      have hsto : (create cfg st doc).store
          = (⟨st.docs ++ [(((clean cfg.props (cfg.inMap doc)).del ix).set ix
              (.num (k : Int))).set "id" (.num st.nextId)],
            st.nextId + 1⟩ : Store) := by
        simp only [create, hadm, hgn, hix, hnext, dbInsert, hhas',
          Bool.false_eq_true, if_false, hrd]
      have hdd : dd = (((clean cfg.props (cfg.inMap doc)).del ix).set ix
          (.num (k : Int))).set "id" (.num st.nextId) := by
        rw [hres] at hok
        have := Except.ok.inj hok
        exact this.symm
      refine ⟨?_, ?_, hempty, hmax⟩
      · rw [hdd, Doc.get_set_ne _ _ hixid, Doc.get_set_self]
      · rw [hsto]
        show (st.docs ++ _).filterMap _ = _
        rw [List.filterMap_append]
        have hfirst : st.docs.filterMap (fun d =>
            match d.get ix with
            | some (.num n) => some n
            | _ => none) = (List.range k).map (fun n : Nat => (n : Int)) := hvals
        have hnix : ((((clean cfg.props (cfg.inMap doc)).del ix).set ix
              (.num (k : Int))).set "id" (.num st.nextId)).get ix
            = some (.num (k : Int)) := by
          rw [Doc.get_set_ne _ _ hixid, Doc.get_set_self]
        rw [hfirst, List.range_succ, List.map_append]
        simp [hnix]

theorem auto_index_monotone_witness :
    Doc.get [("name", JVal.str "a"), ("uid", JVal.num 0), ("id", JVal.num 0)] "uid"
        = some (.num ((0 : Nat) : Int))
    ∧ ivals "uid" (create cfgIdx emptyStore docName).store
        = (List.range (0+1)).map (fun n : Nat => (n : Int))
    ∧ (∀ st' : Store, st'.docs = [] → (getNextIndex cfgIdx st').1 = .ok 0)
    ∧ (∀ (st' : Store) (m : Int), (ivals "uid" st').max? = some m →
        (getNextIndex cfgIdx st').1 = .ok (m + 1)) :=
  auto_index_monotone cfgIdx "uid" 0 emptyStore docName
    [("name", JVal.str "a"), ("uid", JVal.num 0), ("id", JVal.num 0)]
    rfl (by decide) (fun _ => rfl)
    (by intro d hd j h; simp [emptyStore] at hd) rfl rfl

end Rudiment
